import Mathlib

/-!
Verification development for the FortiNet log decoder
(`fortilog_decoder.py`).  The decoder scans a byte stream for two kinds
of magic-tagged records (block records `0xECCF` and envelope/tlc records
`0xAA01`), decodes them and emits individual log entries.

Bytes are modelled as `Nat` (each in `0..255`), byte buffers as
`List Nat`.  Python's indexing, slicing and `struct.unpack_from`
semantics (including negative indices and clamping slices) are modelled
explicitly.  The two LZ4 decompressors are external libraries and enter
as oracle functions; a failing decompression is the oracle returning
`none`.  A Python exception escaping a function is modelled as a
distinguished `fault` outcome.
-/

namespace Fortilog

/-- `int.from_bytes(l, "big")`: big-endian unsigned integer of a byte list
(0 for the empty list, as in Python). -/
def bytesToNatBE : List Nat → Nat
  | [] => 0
  | b :: rest => b * 256 ^ rest.length + bytesToNatBE rest

/-- `int.from_bytes(l, "little")`: little-endian unsigned integer. -/
def bytesToNatLE : List Nat → Nat
  | [] => 0
  | b :: rest => b + 256 * bytesToNatLE rest

/-- Big-endian signed (two's complement) integer of a byte list, the value
`struct.unpack(">h" / ">i" / ">q")` produces for widths 2/4/8. -/
def sIntBE (l : List Nat) : Int :=
  if 2 * bytesToNatBE l < 256 ^ l.length then (bytesToNatBE l : Int)
  else (bytesToNatBE l : Int) - (256 ^ l.length : Nat)

/-- Normalization of a possibly negative Python index against a buffer
length: a negative index counts from the end. -/
def pyNorm (n : Nat) (i : Int) : Int :=
  if i < 0 then i + n else i

/-- Clamping of a Python slice bound to `[0, len]` after normalization. -/
def pyClamp (n : Nat) (i : Int) : Int :=
  if i < 0 then max (i + n) 0 else min i n

/-- Python indexing `b[i]` on a bytes object: negative indices count from
the end; an index out of range raises `IndexError` (here `none`). -/
def pyIndex (b : List Nat) (i : Int) : Option Nat :=
  if 0 ≤ pyNorm b.length i ∧ pyNorm b.length i < (b.length : Int) then
    b.get? (pyNorm b.length i).toNat
  else none

/-- Python slicing `b[i:j]` (step 1): negative bounds count from the end,
bounds are clamped to `[0, len]`, and an empty slice results when the
normalized stop is not past the normalized start.  Never raises. -/
def pySlice (b : List Nat) (i j : Int) : List Nat :=
  (b.drop (pyClamp b.length i).toNat).take (pyClamp b.length j - pyClamp b.length i).toNat

/-- `struct.unpack_from` byte extraction: a negative offset counts from the
end of the buffer; `struct.error` (here `none`) if fewer than `w` bytes are
available at the offset. -/
def unpackFrom (w : Nat) (b : List Nat) (off : Int) : Option (List Nat) :=
  if 0 ≤ pyNorm b.length off ∧ pyNorm b.length off + w ≤ (b.length : Int) then
    some ((b.drop (pyNorm b.length off).toNat).take w)
  else none

/-- Python `(hi << 64) | lo` for `lo` in signed 64-bit range: when `lo` is
nonnegative the two bit patterns are disjoint and the or is a sum; when
`lo` is negative its sign bits (all ones above bit 63) absorb every bit of
`hi <<< 64`, so the result is `lo` itself. -/
def pyOr64 (hi lo : Int) : Int :=
  if lo < 0 then lo else hi * 2 ^ 64 + lo

/-- Re-binding of a Python local: `some new` overrides, otherwise the stale
binding (`none` = never bound, a use raises `NameError`). -/
def updOpt {α : Type} (new old : Option α) : Option α :=
  match new with
  | some a => some a
  | none => old

/-- The fixed field-id table `tlc_fields` of the source (18 entries). -/
def tlc_fields : List String :=
  ["", "devid", "devname", "vdom", "devtype", "logtype", "tmzone", "fazid",
   "srcip", "unused?", "unused?", "num-logs", "unzip-len", "incr-zip",
   "unzip-len-p", "prefix", "zbuf", "logs"]

/-- Module-level `file_ptr_pos = 0`.  `decode_llogv5` only rebinds a local
of the same name (it has no `global` declaration), so the value read by
`parse_tlc`'s diagnostics stays 0 forever. -/
def globalFilePtrPos : Int := 0

/-- One diagnostic event (`output_info` call), with the values interpolated
into its message.  Constructors tagged "debug" correspond to calls with
`typedebug=True`. -/
inductive Diag
  /-- debug: "Found lz4 entry at file offset {off}" -/
  | foundLz4 (off : Nat)
  /-- debug: "Entry holds {n} logs" -/
  | entryHolds (n : Nat)
  /-- error: "Error: Skipped entry at offset {off} in {name} - LZ4 decompression failed" (block) -/
  | errLz4Block (off : Nat) (name : String)
  /-- debug: "Found tlc entry at file offset {off}" -/
  | foundTlc (off : Nat)
  /-- debug: "Decoded {n} logs from tlc entry" -/
  | decodedLogs (n : Nat)
  /-- debug: "TLC entry holds {v} log entries" -/
  | tlcNumLogs (v : Int)
  /-- error: "Error: Could not decode tlc entry at offset {off} in {name}" -/
  | errCouldNotDecodeTlc (off : Int) (name : String)
  /-- error: "Error: Skipped entry at offset {off} in {name} - LZ4 decompression failed" (frame) -/
  | errLz4Frame (off : Int) (name : String)
  /-- error: "Failed to decode file {src} - unknown header {tag} at file offset {off}, not a FortiNet logfile?" -/
  | failedUnknownHeader (src : String) (tag : List Nat) (off : Nat)
  /-- error: "Done {src} {count} logs" -/
  | doneEof (src : String) (count : Nat)
deriving DecidableEq

/-- Whether the event was emitted with `typedebug=True` (suppressed unless
the module-level `debug` flag is on). -/
def Diag.isDebug : Diag → Bool
  | .foundLz4 _ => true
  | .entryHolds _ => true
  | .foundTlc _ => true
  | .decodedLogs _ => true
  | .tlcNumLogs _ => true
  | _ => false

/-- Value decoding of one TLV field per `typehigh` (`parse_tlc` lines
197-224).  Input cursor `q` points just past the type and id bytes.
Returns the new `array` binding (categories 0-2), the new `value` binding
(categories 3-7), and the new cursor; `none` on a Python fault.  Category
1's length prefix is `">h"` (signed).  Category 6 is `">l"` — a 4-byte
read — while the cursor advances by 8, exactly as in the source.
Categories 8-15 match no branch: nothing is decoded, cursor unchanged. -/
def decodeVal (th : Nat) (body : List Nat) (q : Int) :
    Option (Option (List Nat) × Option Int × Int) :=
  if th ≤ 2 then
    match
      (if th = 0 then (pyIndex body q).map (fun x => (Int.ofNat x, q + 1))
       else if th = 1 then (unpackFrom 2 body q).map (fun bs => (sIntBE bs, q + 2))
       else (unpackFrom 4 body q).map (fun bs => ((bytesToNatBE bs : Int), q + 4))) with
    | none => none
    | some (larray, q2) =>
        some (some (pySlice body q2 (q2 + larray)), none, q2 + larray)
  else if th = 3 then (pyIndex body q).map (fun v => (none, some (Int.ofNat v), q + 1))
  else if th = 4 then (unpackFrom 2 body q).map (fun bs => (none, some (sIntBE bs), q + 2))
  else if th = 5 then (unpackFrom 4 body q).map (fun bs => (none, some (sIntBE bs), q + 4))
  else if th = 6 then (unpackFrom 4 body q).map (fun bs => (none, some (sIntBE bs), q + 8))
  else if th = 7 then
    (unpackFrom 16 body q).map
      (fun bs => (none, some (pyOr64 (sIntBE (bs.take 8)) (sIntBE (bs.drop 8))), q + 16))
  else some (none, none, q)

/-- One TLV field read (`parse_tlc` lines 192-224): the type byte at the
cursor (high nibble = category), the full id byte after it, then the value
per `decodeVal`.  Result: category, field id, new `array`/`value`
bindings, new cursor; `none` on a fault. -/
def readField (body : List Nat) (p : Int) :
    Option (Nat × Nat × Option (List Nat) × Option Int × Int) :=
  (pyIndex body p).bind (fun b0 =>
    (pyIndex body (p + 1)).bind (fun fid =>
      (decodeVal (b0 / 16) body (p + 2)).map (fun t => (b0 / 16, fid, t))))

/-- The loop state of `parse_tlc`: the cursor, `lunzipped` (initially 0),
and the current bindings of the locals `array` and `value` (`none` while
still unbound; they persist across iterations). -/
structure TlcState where
  pointer : Int
  lunzipped : Int
  arrayV : Option (List Nat)
  valueV : Option Int
deriving DecidableEq

/-- Initial `parse_tlc` state: `pointer = 0`, `lunzipped = 0`, locals
`array` and `value` unbound. -/
def tlcInit : TlcState := ⟨0, 0, none, none⟩

/-- Outcome of one iteration of the `parse_tlc` loop. -/
inductive TlcOut
  | cont (s : TlcState) (ds : List Diag)
  | ret (buf : List Nat) (ds : List Diag)
  | fault (ds : List Diag)
deriving DecidableEq

/-- One iteration of the `parse_tlc` loop (source lines 192-240), for a
frame-decompression oracle `fd`.  `nameArg` is the string interpolated as
`instream.name` into this function's diagnostics — the caller passes the
OUTPUT stream there, because the call site swaps the `instream`/`outstream`
arguments.  `tlc_fields[fieldid]` faults (IndexError) when the id is out
of the 18-entry table.  In the `zbuf` branch the `or` short-circuits:
`array` is only touched when `lunzipped ≠ 0`. -/
def tlcStep (fd : List Nat → Int → Option (List Nat)) (body : List Nat)
    (nameArg : String) (s : TlcState) : TlcOut :=
  match readField body s.pointer with
  | none => .fault []
  | some (_th, fid, aOpt, vOpt, q) =>
    let arrayV := updOpt aOpt s.arrayV
    let valueV := updOpt vOpt s.valueV
    if h : fid < tlc_fields.length then
      let name := tlc_fields.get ⟨fid, h⟩
      if name = "unzip-len" then
        match valueV with
        | none => .fault []
        | some v => .cont ⟨q, v, arrayV, valueV⟩ []
      else if name = "num-logs" then
        match valueV with
        | none => .fault []
        | some v => .cont ⟨q, s.lunzipped, arrayV, valueV⟩ [.tlcNumLogs v]
      else if name = "zbuf" then
        if s.lunzipped = 0 then
          .ret [] [.errCouldNotDecodeTlc globalFilePtrPos nameArg]
        else
          match arrayV with
          | none => .fault []
          | some arr =>
            if arr = [] then
              .ret [] [.errCouldNotDecodeTlc globalFilePtrPos nameArg]
            else
              match fd arr s.lunzipped with
              | none => .ret [] [.errLz4Frame globalFilePtrPos nameArg]
              | some dec => .ret dec []
      else .cont ⟨q, s.lunzipped, arrayV, valueV⟩ []
    else .fault []

/-- Result of a full `parse_tlc` run, diagnostics included.  `ok buf` is a
normal `return` (the code returns `bytearray()` both on the error paths
and when the loop exhausts the body); `fault` is an escaping exception;
`outOfFuel` marks a run that exceeded the fuel bound (the Python loop can
genuinely fail to terminate). -/
inductive TlcResult
  | ok (buf : List Nat) (ds : List Diag)
  | fault (ds : List Diag)
  | outOfFuel (ds : List Diag)
deriving DecidableEq

/-- The `parse_tlc` loop, driven by fuel. -/
def tlcRun (fd : List Nat → Int → Option (List Nat)) (body : List Nat)
    (nameArg : String) : Nat → TlcState → List Diag → TlcResult
  | 0, _, ds => .outOfFuel ds
  | fuel + 1, s, ds =>
    if s.pointer < (body.length : Int) then
      match tlcStep fd body nameArg s with
      | .cont s2 ds2 => tlcRun fd body nameArg fuel s2 (ds ++ ds2)
      | .ret buf ds2 => .ok buf (ds ++ ds2)
      | .fault ds2 => .fault (ds ++ ds2)
    else .ok [] ds

/-- `parse_tlc(body, ...)`: run the loop from the initial state.  A fuel of
`|body| + 1` covers every terminating run — the cursor advances by at
least 2 per iteration unless a category-1 field has a negative length
prefix, in which case the Python loop itself need not terminate. -/
def parse_tlc (fd : List Nat → Int → Option (List Nat)) (body : List Nat)
    (nameArg : String) : TlcResult :=
  tlcRun fd body nameArg (body.length + 1) tlcInit []

/-! ## Block-record entry splitting (`decode_llogv5` lines 134-142) -/

/-- The entry loop `for no in range(0, lentrycounts, 2)` of the block
decoder: `count` iterations remain, `no` indexes the length table, `p` is
the running `pointer` into the decompressed buffer.  Each step reads a
2-byte big-endian length from `entrieslengths[no:no+2]` and slices
`decompressed[p:p+l]` (indices here are nonnegative, where Python's slice
is plain take/drop). -/
def blockGo (d el : List Nat) : Nat → Nat → Nat → List (List Nat)
  | _, _, 0 => []
  | no, p, k + 1 =>
    (d.drop p).take (bytesToNatBE ((el.drop no).take 2)) ::
      blockGo d el (no + 2) (p + bytesToNatBE ((el.drop no).take 2)) k

/-- Splitting of the decompressed block payload into entries: `N > 1` runs
the length-table loop, `N == 1` takes the whole buffer, `N == 0` produces
nothing (source lines 134-142). -/
def splitBlockEntries (entrycount : Nat) (entrieslengths decompressed : List Nat) :
    List (List Nat) :=
  if 1 < entrycount then blockGo decompressed entrieslengths 0 0 entrycount
  else if entrycount = 1 then [decompressed]
  else []

/-- The length table the block decoder reads: `count` big-endian uint16
values from `el`, starting at byte offset `no`, consecutive. -/
def lengthTableGo (el : List Nat) : Nat → Nat → List Nat
  | _, 0 => []
  | no, k + 1 => bytesToNatBE ((el.drop no).take 2) :: lengthTableGo el (no + 2) k

/-- The full entry-length table of a block record with `n` entries. -/
def lengthTable (el : List Nat) (n : Nat) : List Nat := lengthTableGo el 0 n

/-! ## Envelope piece processing (`decode_llogv5` lines 163-170) -/

/-- Bytewise prefix test (what Python's `bytes.split` performs at each
scan position). -/
def seqMatch : List Nat → List Nat → Bool
  | [], _ => true
  | _ :: _, [] => false
  | a :: as2, b :: bs => a == b && seqMatch as2 bs

/-- Fuel-driven engine of Python `l.split(a :: sep)` (the separator is
nonempty): left-to-right, non-overlapping, empty pieces kept.  Any fuel
exceeding the list length computes the split; the fuel only makes the
recursion structural. -/
def pySplitSeqF (a : Nat) (sep : List Nat) : Nat → List Nat → List (List Nat)
  | 0, _ => []
  | _ + 1, [] => [[]]
  | fuel + 1, x :: xs =>
    if seqMatch (a :: sep) (x :: xs) then
      [] :: pySplitSeqF a sep fuel (xs.drop sep.length)
    else
      match pySplitSeqF a sep fuel xs with
      | p :: ps => (x :: p) :: ps
      | [] => [[x]]

/-- Python `l.split(a :: sep)`. -/
def pySplitSeq (a : Nat) (sep : List Nat) (l : List Nat) : List (List Nat) :=
  pySplitSeqF a sep (l.length + 1) l

/-- Fuel-driven count of non-overlapping left-to-right occurrences of the
pattern `a :: sep`; recursion in lockstep with `pySplitSeqF`. -/
def countOccF (a : Nat) (sep : List Nat) : Nat → List Nat → Nat
  | 0, _ => 0
  | _ + 1, [] => 0
  | fuel + 1, x :: xs =>
    if seqMatch (a :: sep) (x :: xs) then
      countOccF a sep fuel (xs.drop sep.length) + 1
    else countOccF a sep fuel xs

/-- Number of non-overlapping left-to-right occurrences of the pattern
`a :: sep` in a list. -/
def countOcc (a : Nat) (sep : List Nat) (l : List Nat) : Nat :=
  countOccF a sep (l.length + 1) l

/-- Fuel-driven suffix after the first occurrence of the pattern
`a :: sep` (`[]` when the pattern does not occur). -/
def afterFirstOccF (a : Nat) (sep : List Nat) : Nat → List Nat → List Nat
  | 0, _ => []
  | _ + 1, [] => []
  | fuel + 1, x :: xs =>
    if seqMatch (a :: sep) (x :: xs) then xs.drop sep.length
    else afterFirstOccF a sep fuel xs

/-- The suffix after the first occurrence of the pattern `a :: sep`. -/
def afterFirstOcc (a : Nat) (sep : List Nat) (l : List Nat) : List Nat :=
  afterFirstOccF a sep (l.length + 1) l

/-- The marker `b"date="` as bytes. -/
def dateMarker : List Nat := [100, 97, 116, 101, 61]

/-- Processing of one `0x00`-separated piece of the decompressed envelope
payload (lines 165-170): split on `b"date="`; exactly two parts are
required (`len(entryparts) != 2` skips the piece); the emitted entry is the
marker re-attached to the second part. -/
def tlcPiece (raw : List Nat) : Option (List Nat) :=
  match pySplitSeq 100 [97, 116, 101, 61] raw with
  | [_, post] => some (dateMarker ++ post)
  | _ => none

/-- Entries of an envelope record obtained from the frame-decompressed
payload `tlc` (lines 163-170): split on the `0x00` delimiter, then process
each piece, silently dropping pieces that yield nothing. -/
def entriesFromTlc (tlc : List Nat) : List (List Nat) :=
  (tlc.splitOn 0).filterMap tlcPiece

/-! ## Stream scanner (`decode_llogv5`) -/

/-- `instream.read(n)` on a stream over `data` at position `pos`: returns
the bytes obtained (possibly short at EOF) and the new position. -/
def sRead (data : List Nat) (pos n : Nat) : List Nat × Nat :=
  ((data.drop pos).take n, min (pos + n) data.length)

/-- Outcome of one iteration of the scanner loop of `decode_llogv5`:
continue at a new position with entries and diagnostics emitted this
iteration, stop (`break`, both for EOF and for an unknown header), a
Python fault, or a divergence inside `parse_tlc`. -/
inductive ScanStep
  | cont (pos : Nat) (es : List (List Nat)) (ds : List Diag)
  | halt (ds : List Diag)
  | fault (ds : List Diag)
  | diverged (ds : List Diag)
deriving DecidableEq

/-- One iteration of the `decode_llogv5` loop (source lines 100-181).
`bd` is the `lz4.block.decompress` oracle (arguments: compressed bytes and
the `uncompressed_size` hint `ldecompressed+1`), `fd` the
`lz4.frame.decompress` oracle.  `srcName` is both the `sourcefile`
argument and `instream.name`; `outName` is the name of the output stream.
`count` is the running `logentries` total (only interpolated into the EOF
diagnostic).  Note two faithfully reproduced quirks: on block
decompression failure the `continue` skips the trailer reads (lines
149-151), and the `parse_tlc` call passes `(body, outstream, instream)`
to parameters `(body, instream, outstream)`, so the name reaching the TLV
parser's diagnostics is the output stream's. -/
def scanStep (bd : List Nat → Nat → Option (List Nat))
    (fd : List Nat → Int → Option (List Nat)) (data : List Nat)
    (srcName outName : String) (pos count : Nat) : ScanStep :=
  let r0 := sRead data pos 2
  let logtype := r0.1
  if logtype = [0xEC, 0xCF] then
    let rh := sRead data r0.2 16
    let head := rh.1
    match pyIndex head 0, pyIndex head 3, pyIndex head 4, pyIndex head 5 with
    | some h0, some ldevid, some ldevname, some lvdom =>
      let flag := h0 / 4 % 2
      let entrycount := bytesToNatBE ((head.drop 6).take 2)
      let lentrycounts := entrycount * 2
      let lsomething := if flag = 1 then lentrycounts else 0
      let lcompressed := bytesToNatBE ((head.drop 8).take 2)
      let ldecompressed := bytesToNatBE ((head.drop 10).take 2)
      let lascii := ldevid + ldevname + lvdom
      let rb := sRead data rh.2 (lascii + lentrycounts + lsomething + lcompressed)
      let body := rb.1
      let entrieslengths := (body.drop lascii).take lentrycounts
      let compressed := (body.drop (lascii + lentrycounts + lsomething)).take lcompressed
      match bd compressed (ldecompressed + 1) with
      | none =>
        .cont rb.2 [] [.foundLz4 pos, .entryHolds entrycount, .errLz4Block pos srcName]
      | some dec =>
        let entries := splitBlockEntries entrycount entrieslengths dec
        let r2 := sRead data rb.2 2
        let r3 := sRead data r2.2 (bytesToNatLE r2.1)
        .cont r3.2 entries [.foundLz4 pos, .entryHolds entrycount]
    | _, _, _, _ => .fault [.foundLz4 pos]
  else if logtype = [0xAA, 0x01] then
    let r1 := sRead data r0.2 2
    let r2 := sRead data r1.2 4
    let lbody := bytesToNatBE r2.1
    let rb :=
      if (lbody : Int) - 8 < 0 then sRead data r2.2 (data.length - r2.2)
      else sRead data r2.2 (lbody - 8)
    match parse_tlc fd rb.1 outName with
    | .fault ds => .fault (.foundTlc pos :: ds)
    | .outOfFuel ds => .diverged (.foundTlc pos :: ds)
    | .ok tlcbuf ds =>
      let entries := entriesFromTlc tlcbuf
      .cont rb.2 entries (.foundTlc pos :: ds ++ [.decodedLogs entries.length])
  else if logtype = [0, 0] ∨ logtype = [0] then
    .cont r0.2 [] []
  else if logtype ≠ [] then
    .halt [.failedUnknownHeader srcName logtype pos]
  else
    .halt [.doneEof srcName count]

/-- Result of a full scan of one stream: all entries handed to
`output_logs` in order, and all diagnostics in order. -/
inductive ScanResult
  | done (es : List (List Nat)) (ds : List Diag)
  | fault (es : List (List Nat)) (ds : List Diag)
  | diverged (es : List (List Nat)) (ds : List Diag)
deriving DecidableEq

/-- The scanner loop, driven by fuel (every continuing iteration consumes
at least one byte, so `|data| + 1` covers every run). -/
def scanRun (bd : List Nat → Nat → Option (List Nat))
    (fd : List Nat → Int → Option (List Nat)) (data : List Nat)
    (srcName outName : String) : Nat → Nat → Nat → ScanResult
  | 0, _, _ => .diverged [] []
  | fuel + 1, pos, count =>
    match scanStep bd fd data srcName outName pos count with
    | .cont p2 es ds =>
      match scanRun bd fd data srcName outName fuel p2 (count + es.length) with
      | .done es2 ds2 => .done (es ++ es2) (ds ++ ds2)
      | .fault es2 ds2 => .fault (es ++ es2) (ds ++ ds2)
      | .diverged es2 ds2 => .diverged (es ++ es2) (ds ++ ds2)
    | .halt ds => .done [] ds
    | .fault ds => .fault [] ds
    | .diverged ds => .diverged [] ds

/-- `decode_llogv5(instream, sourcefile, outstream)` over a fully
materialized input `data`. -/
def decode_llogv5 (bd : List Nat → Nat → Option (List Nat))
    (fd : List Nat → Int → Option (List Nat)) (data : List Nat)
    (srcName outName : String) : ScanResult :=
  scanRun bd fd data srcName outName (data.length + 1) 0 0

/-! ## Concrete inputs used by counterexamples and witnesses -/

/-- A block decompressor that always fails. -/
def noBd : List Nat → Nat → Option (List Nat) := fun _ _ => none

/-- A frame decompressor that always fails. -/
def noFd : List Nat → Int → Option (List Nat) := fun _ _ => none

/-- A standalone valid block record: tag `0xECCF`, header with
`entryCount = 1`, `compressedLen = 3`, `decompressedLen = 2`, no ascii
fields, body = length table `[0,2]` + compressed payload `[8,8,8]`,
then a 2-byte zero trailer length. -/
def c1rec2 : List Nat :=
  [236, 207, 0, 0, 0, 0, 0, 0, 0, 1, 0, 3, 0, 2, 0, 0, 0, 0, 0, 2, 8, 8, 8, 0, 0]

/-- A stream holding first a block record whose compressed payload
`[9,9,9]` is corrupt (the oracle fails on it), with a trailer of declared
length 2 (`[2,0]` little-endian, then trailer bytes `[7,7]`), followed by
the valid record `c1rec2`, which starts at offset 27. -/
def c1data : List Nat :=
  [236, 207, 0, 0, 0, 0, 0, 0, 0, 1, 0, 3, 0, 2, 0, 0, 0, 0, 0, 2, 9, 9, 9, 2, 0, 7, 7]
    ++ c1rec2

/-- Block decompressor for the C1 scenario: succeeds exactly on the good
payload `[8,8,8]` (with size hint `decompressedLen + 1 = 3`), yielding
the two-byte buffer `[5,6]`; fails on everything else, in particular on
the corrupted payload `[9,9,9]`. -/
def c1bd : List Nat → Nat → Option (List Nat) :=
  fun c sz => if c = [8, 8, 8] ∧ sz = 3 then some [5, 6] else none

/-- A stream with two padding bytes, then an envelope record at offset 2:
tag `0xAA01`, 2 reserved bytes, total length 11, and a 3-byte TLV body
`[0x00, 0x10, 0x00]` — a `zbuf` field (id 16) with an empty array before
any `unzip-len`, which makes the TLV parse fail with a diagnostic. -/
def c8data : List Nat := [0, 0, 170, 1, 0, 0, 0, 0, 0, 11, 0, 16, 0]

/-- A `0x00`-free envelope payload in which the marker `b"date="` occurs
twice: `b"date=Adate=B"`. -/
def c6piece : List Nat := [100, 97, 116, 101, 61, 65, 100, 97, 116, 101, 61, 66]

/-- A TLV body holding one category-1 field (id 1) whose 2-byte signed
length prefix decodes to `-4`: the cursor comes back exactly to 0 and the
`parse_tlc` loop repeats this field forever. -/
def c9body : List Nat := [16, 1, 255, 252]

/-- The state the `parse_tlc` loop reaches after once processing the
field of `c9body`: cursor back at 0, `array` bound to the empty slice.
It is a fixpoint of the loop. -/
def c9state : TlcState := ⟨0, 0, some [], none⟩

/-! ## Bridge lemmas: Python primitives at natural positions -/

theorem pyNorm_natCast (n : Nat) (i : Nat) : pyNorm n (i : Int) = (i : Int) := by
  unfold pyNorm
  rw [if_neg (by omega)]

theorem pyClamp_natCast (n : Nat) (i : Nat) : pyClamp n (i : Int) = min (i : Int) n := by
  unfold pyClamp
  rw [if_neg (by omega)]

theorem pyIndex_natCast (b : List Nat) (i : Nat) : pyIndex b (i : Int) = b.get? i := by
  unfold pyIndex
  rw [pyNorm_natCast]
  by_cases hi : i < b.length
  · rw [if_pos ⟨by omega, by omega⟩]
    simp
  · rw [if_neg (by omega)]
    exact (List.get?_eq_none.mpr (by omega)).symm

theorem unpackFrom_natCast (w : Nat) (b : List Nat) (o : Nat) :
    unpackFrom w b (o : Int) =
      if o + w ≤ b.length then some ((b.drop o).take w) else none := by
  unfold unpackFrom
  rw [pyNorm_natCast]
  by_cases ho : o + w ≤ b.length
  · rw [if_pos ⟨by omega, by omega⟩, if_pos ho]
    simp
  · rw [if_neg (by omega), if_neg ho]

theorem pySlice_natCast (b : List Nat) (i j : Nat) :
    pySlice b (i : Int) (j : Int) = (b.drop i).take (j - i) := by
  unfold pySlice
  rw [pyClamp_natCast, pyClamp_natCast]
  by_cases hi : i ≤ b.length
  · have h1 : (min (i : Int) (b.length : Int)).toNat = i := by omega
    rw [h1]
    by_cases hj : j ≤ b.length
    · have h2 : (min (j : Int) (b.length : Int) - min (i : Int) (b.length : Int)).toNat
          = j - i := by omega
      rw [h2]
    · have h2 : (min (j : Int) (b.length : Int) - min (i : Int) (b.length : Int)).toNat
          = b.length - i := by omega
      rw [h2]
      have hlen : (b.drop i).length = b.length - i := List.length_drop i b
      rw [List.take_of_length_le (by omega), List.take_of_length_le (by omega)]
  · have h1 : (min (i : Int) (b.length : Int)).toNat = b.length := by omega
    have h2 : b.drop i = [] := List.drop_eq_nil_of_le (by omega)
    rw [h1, h2, List.drop_length]
    simp

theorem pySlice_of_le (b : List Nat) (i j : Int) (hj : 0 ≤ j) (hji : j ≤ i) :
    pySlice b i j = [] := by
  unfold pySlice
  have hcl : pyClamp b.length j - pyClamp b.length i ≤ 0 := by
    unfold pyClamp
    rw [if_neg (by omega)]
    by_cases hi : i < 0 <;> [rw [if_pos hi]; rw [if_neg hi]] <;> omega
  have : (pyClamp b.length j - pyClamp b.length i).toNat = 0 := by omega
  rw [this, List.take_zero]

/-! ## Arithmetic facts about byte encodings -/

theorem bytesToNatBE_lt (l : List Nat) (hb : ∀ x ∈ l, x < 256) :
    bytesToNatBE l < 256 ^ l.length := by
  induction l with
  | nil => simp [bytesToNatBE]
  | cons b rest ih =>
    have hb1 : b < 256 := hb b (List.mem_cons_self b rest)
    have ih2 := ih (fun x hx => hb x (List.mem_cons_of_mem b hx))
    have hbound : b * 256 ^ rest.length ≤ 255 * 256 ^ rest.length :=
      Nat.mul_le_mul_right _ (by omega)
    calc bytesToNatBE (b :: rest)
        = b * 256 ^ rest.length + bytesToNatBE rest := rfl
      _ < b * 256 ^ rest.length + 256 ^ rest.length := by omega
      _ ≤ 255 * 256 ^ rest.length + 256 ^ rest.length := by omega
      _ = 256 ^ (rest.length + 1) := by ring
      _ = 256 ^ (b :: rest).length := by simp

theorem bytesToNatBE_append (a b : List Nat) :
    bytesToNatBE (a ++ b) = bytesToNatBE a * 256 ^ b.length + bytesToNatBE b := by
  induction a with
  | nil => simp [bytesToNatBE]
  | cons x rest ih =>
    show x * 256 ^ (rest ++ b).length + bytesToNatBE (rest ++ b) = _
    rw [ih, List.length_append]
    show x * 256 ^ (rest.length + b.length) + _
        = (x * 256 ^ rest.length + bytesToNatBE rest) * 256 ^ b.length + bytesToNatBE b
    ring

theorem sIntBE_cons_bound (l : List Nat) (hb : ∀ x ∈ l, x < 256) :
    -(256 ^ l.length : Nat) ≤ 2 * sIntBE l ∧ 2 * sIntBE l < (256 ^ l.length : Nat) := by
  have hlt := bytesToNatBE_lt l hb
  unfold sIntBE
  by_cases h2 : 2 * bytesToNatBE l < 256 ^ l.length
  · rw [if_pos h2]; omega
  · rw [if_neg h2]; omega

/-- The value Python computes for a category-7 field, `(hi << 64) | lo`
with `hi`/`lo` the signed 8-byte halves, equals the true 16-byte signed
big-endian integer whenever the low half is nonnegative. -/
theorem pyOr64_split16 (l : List Nat) (hlen : l.length = 16) (hb : ∀ x ∈ l, x < 256)
    (hlo : 0 ≤ sIntBE (l.drop 8)) :
    pyOr64 (sIntBE (l.take 8)) (sIntBE (l.drop 8)) = sIntBE l := by
  have hla : (l.take 8).length = 8 := by rw [List.length_take]; omega
  have hlb : (l.drop 8).length = 8 := by rw [List.length_drop]; omega
  have hua := bytesToNatBE_lt (l.take 8) (fun x hx => hb x (List.take_subset 8 l hx))
  have hub := bytesToNatBE_lt (l.drop 8) (fun x hx => hb x (List.drop_subset 8 l hx))
  rw [hla] at hua
  rw [hlb] at hub
  have happ : bytesToNatBE l = bytesToNatBE (l.take 8) * 256 ^ 8 + bytesToNatBE (l.drop 8) := by
    conv_lhs => rw [← List.take_append_drop 8 l]
    rw [bytesToNatBE_append, hlb]
  -- the low half is nonnegative exactly when its top bit is clear
  have hlow2 : 2 * bytesToNatBE (l.drop 8) < 256 ^ 8 := by
    by_contra hc
    have hneg : sIntBE (l.drop 8)
        = (bytesToNatBE (l.drop 8) : Int) - ((256 ^ 8 : Nat) : Int) := by
      unfold sIntBE
      rw [hlb, if_neg hc]
    rw [hneg] at hlo
    omega
  have hlow1 : sIntBE (l.drop 8) = (bytesToNatBE (l.drop 8) : Int) := by
    unfold sIntBE
    rw [hlb, if_pos hlow2]
  unfold pyOr64
  rw [hlow1, if_neg (by omega)]
  unfold sIntBE
  rw [hla, hlen, happ]
  by_cases hhi : 2 * bytesToNatBE (l.take 8) < 256 ^ 8
  · rw [if_pos hhi, if_pos (by omega)]
    push_cast
    omega
  · rw [if_neg hhi, if_neg (by omega)]
    push_cast
    omega

/-! ## Shapes of `decodeVal` per category -/

theorem decodeVal_eq_zero (body : List Nat) (q : Int) :
    decodeVal 0 body q = (pyIndex body q).map
      (fun x => (some (pySlice body (q + 1) (q + 1 + Int.ofNat x)), none, q + 1 + Int.ofNat x)) := by
  cases hx : pyIndex body q <;> simp [decodeVal, hx]

theorem decodeVal_eq_one (body : List Nat) (q : Int) :
    decodeVal 1 body q = (unpackFrom 2 body q).map
      (fun bs => (some (pySlice body (q + 2) (q + 2 + sIntBE bs)), none, q + 2 + sIntBE bs)) := by
  cases hx : unpackFrom 2 body q <;> simp [decodeVal, hx]

theorem decodeVal_eq_two (body : List Nat) (q : Int) :
    decodeVal 2 body q = (unpackFrom 4 body q).map
      (fun bs => (some (pySlice body (q + 4) (q + 4 + (bytesToNatBE bs : Int))), none,
        q + 4 + (bytesToNatBE bs : Int))) := by
  cases hx : unpackFrom 4 body q <;> simp [decodeVal, hx]

theorem decodeVal_eq_three (body : List Nat) (q : Int) :
    decodeVal 3 body q = (pyIndex body q).map (fun v => (none, some (Int.ofNat v), q + 1)) := by
  simp [decodeVal]

theorem decodeVal_eq_four (body : List Nat) (q : Int) :
    decodeVal 4 body q = (unpackFrom 2 body q).map (fun bs => (none, some (sIntBE bs), q + 2)) := by
  simp [decodeVal]

theorem decodeVal_eq_five (body : List Nat) (q : Int) :
    decodeVal 5 body q = (unpackFrom 4 body q).map (fun bs => (none, some (sIntBE bs), q + 4)) := by
  simp [decodeVal]

theorem decodeVal_eq_six (body : List Nat) (q : Int) :
    decodeVal 6 body q = (unpackFrom 4 body q).map (fun bs => (none, some (sIntBE bs), q + 8)) := by
  simp [decodeVal]

theorem decodeVal_eq_seven (body : List Nat) (q : Int) :
    decodeVal 7 body q = (unpackFrom 16 body q).map
      (fun bs => (none, some (pyOr64 (sIntBE (bs.take 8)) (sIntBE (bs.drop 8))), q + 16)) := by
  simp [decodeVal]

theorem decodeVal_eq_high (th : Nat) (hth : 8 ≤ th) (body : List Nat) (q : Int) :
    decodeVal th body q = some (none, none, q) := by
  unfold decodeVal
  rw [if_neg (by omega), if_neg (by omega), if_neg (by omega), if_neg (by omega),
    if_neg (by omega), if_neg (by omega)]

/-- Inversion of a successful field read: the type byte and id byte were
both in range, and the value decode succeeded for the type's high
nibble. -/
theorem readField_inv {body : List Nat} {p : Int} {th fid : Nat}
    {aOpt : Option (List Nat)} {vOpt : Option Int} {q : Int}
    (h : readField body p = some (th, fid, aOpt, vOpt, q)) :
    ∃ b0, pyIndex body p = some b0 ∧ b0 / 16 = th ∧ pyIndex body (p + 1) = some fid ∧
      decodeVal th body (p + 2) = some (aOpt, vOpt, q) := by
  unfold readField at h
  cases hb : pyIndex body p with
  | none => rw [hb] at h; exact absurd h (by simp)
  | some b0 =>
    rw [hb, Option.some_bind'] at h
    cases hf : pyIndex body (p + 1) with
    | none => rw [hf] at h; exact absurd h (by simp)
    | some fid2 =>
      rw [hf, Option.some_bind'] at h
      cases hd : decodeVal (b0 / 16) body (p + 2) with
      | none => rw [hd] at h; exact absurd h (by simp)
      | some t =>
        rw [hd] at h
        obtain ⟨a2, v2, q2⟩ := t
        simp only [Option.map_some', Option.some.injEq, Prod.mk.injEq] at h
        obtain ⟨h1, h2, h3, h4, h5⟩ := h
        subst h1 h2 h3 h4 h5
        exact ⟨b0, rfl, rfl, rfl, hd⟩

/-! ## Behavior of one `parse_tlc` iteration -/

/-- Dispatching on a field id at or beyond the 18-entry table faults:
`tlc_fields[fieldid]` raises `IndexError` after the value was already
decoded. -/
theorem tlcStep_oob (fd : List Nat → Int → Option (List Nat)) (body : List Nat)
    (nm : String) (s : TlcState) (th fid : Nat) (aOpt : Option (List Nat))
    (vOpt : Option Int) (q : Int)
    (h : readField body s.pointer = some (th, fid, aOpt, vOpt, q)) (hfid : 18 ≤ fid) :
    tlcStep fd body nm s = .fault [] := by
  have hlen : tlc_fields.length = 18 := rfl
  unfold tlcStep
  rw [h]
  dsimp only
  rw [dif_neg (by omega)]

/-- A `zbuf` field (id 16, array-coded) reached with `lunzipped = 0` or
with an empty array returns the empty buffer at once, with exactly the one
"Could not decode" diagnostic. -/
theorem tlcStep_zbuf_err (fd : List Nat → Int → Option (List Nat)) (body : List Nat)
    (nm : String) (s : TlcState) (th : Nat) (arr : List Nat) (vOpt : Option Int) (q : Int)
    (h : readField body s.pointer = some (th, 16, some arr, vOpt, q))
    (hz : s.lunzipped = 0 ∨ arr = []) :
    tlcStep fd body nm s = .ret [] [.errCouldNotDecodeTlc globalFilePtrPos nm] := by
  unfold tlcStep
  rw [h]
  dsimp only
  rw [dif_pos (show (16 : Nat) < tlc_fields.length by decide)]
  rw [show tlc_fields.get ⟨16, by decide⟩ = "zbuf" from rfl]
  rw [if_neg (by decide), if_neg (by decide), if_pos rfl]
  by_cases h0 : s.lunzipped = 0
  · rw [if_pos h0]
  · rw [if_neg h0]
    dsimp only [updOpt]
    rw [if_pos (hz.resolve_left h0)]

/-- Processing an `unzip-len` field (id 12) whose value decode bound
`value` to `v` stores `v` into `lunzipped` and continues silently. -/
theorem tlcStep_unzip (fd : List Nat → Int → Option (List Nat)) (body : List Nat)
    (nm : String) (s : TlcState) (th : Nat) (aOpt : Option (List Nat)) (v : Int) (q : Int)
    (h : readField body s.pointer = some (th, 12, aOpt, some v, q)) :
    tlcStep fd body nm s = .cont ⟨q, v, updOpt aOpt s.arrayV, some v⟩ [] := by
  unfold tlcStep
  rw [h]
  dsimp only
  rw [dif_pos (show (12 : Nat) < tlc_fields.length by decide)]
  rw [show tlc_fields.get ⟨12, by decide⟩ = "unzip-len" from rfl]
  rw [if_pos rfl]
  dsimp only [updOpt]

/-- A continuing iteration of the `parse_tlc` loop emits only debug
diagnostics (the single `num-logs` info message); every error diagnostic
of the parser is emitted on an immediately returning path. -/
theorem tlcStep_cont_debug (fd : List Nat → Int → Option (List Nat)) (body : List Nat)
    (nm : String) (s s2 : TlcState) (ds : List Diag)
    (h : tlcStep fd body nm s = .cont s2 ds) : ∀ d ∈ ds, d.isDebug = true := by
  unfold tlcStep at h
  cases hr : readField body s.pointer with
  | none => rw [hr] at h; exact absurd h (by simp)
  | some t =>
    obtain ⟨th, fid, aOpt, vOpt, q⟩ := t
    rw [hr] at h
    dsimp only at h
    by_cases hf : fid < tlc_fields.length
    · rw [dif_pos hf] at h
      by_cases h1 : tlc_fields.get ⟨fid, hf⟩ = "unzip-len"
      · rw [if_pos h1] at h
        cases hv : updOpt vOpt s.valueV with
        | none => rw [hv] at h; exact absurd h (by simp)
        | some v =>
          rw [hv] at h
          simp only [TlcOut.cont.injEq] at h
          rw [← h.2]
          intro d hd
          exact absurd hd (by simp)
      · rw [if_neg h1] at h
        by_cases h2 : tlc_fields.get ⟨fid, hf⟩ = "num-logs"
        · rw [if_pos h2] at h
          cases hv : updOpt vOpt s.valueV with
          | none => rw [hv] at h; exact absurd h (by simp)
          | some v =>
            rw [hv] at h
            simp only [TlcOut.cont.injEq] at h
            rw [← h.2]
            intro d hd
            simp only [List.mem_singleton] at hd
            subst hd
            rfl
        · rw [if_neg h2] at h
          by_cases h3 : tlc_fields.get ⟨fid, hf⟩ = "zbuf"
          · rw [if_pos h3] at h
            by_cases h4 : s.lunzipped = 0
            · rw [if_pos h4] at h; exact absurd h (by simp)
            · rw [if_neg h4] at h
              cases ha : updOpt aOpt s.arrayV with
              | none => rw [ha] at h; exact absurd h (by simp)
              | some arr =>
                rw [ha] at h
                dsimp only at h
                by_cases h5 : arr = []
                · rw [if_pos h5] at h; exact absurd h (by simp)
                · rw [if_neg h5] at h
                  cases hfd : fd arr s.lunzipped with
                  | none => rw [hfd] at h; exact absurd h (by simp)
                  | some dec => rw [hfd] at h; exact absurd h (by simp)
          · rw [if_neg h3] at h
            simp only [TlcOut.cont.injEq] at h
            rw [← h.2]
            intro d hd
            exact absurd hd (by simp)
    · rw [dif_neg hf] at h; exact absurd h (by simp)

/-! ## Claims C2, C4, C9, C10 (TLV field parser) -/

/-- C2, counterexample: on the TLV body `[0x30, 0x12, 0xFF]` — one
category-3 field with id `0x12 = 18`, one past the table — `parse_tlc`
does NOT return an empty buffer: it faults with an unhandled `IndexError`
(the table IS indexed with the unchecked id).  The claim's promised
outcome, returning the empty buffer, is a different result. -/
theorem claim2_counterexample :
    parse_tlc noFd [48, 18, 255] "src" = .fault []
    ∧ TlcResult.fault [] ≠ TlcResult.ok [] [] := by decide

/-- C2, amended: for every TLV body in which a field carries a fieldId at
or beyond the 18-entry table bound (and whose value decode succeeds), the
parser raises an unhandled IndexError at the table lookup — the parse
faults, emitting nothing, rather than returning an empty buffer; it never
completes an iteration for such a field. -/
theorem claim2_amended (fd : List Nat → Int → Option (List Nat)) (body : List Nat)
    (nm : String) (s : TlcState) (th fid : Nat) (aOpt : Option (List Nat))
    (vOpt : Option Int) (q : Int)
    (h : readField body s.pointer = some (th, fid, aOpt, vOpt, q)) (hfid : 18 ≤ fid)
    (hp : s.pointer < (body.length : Int)) :
    tlcStep fd body nm s = .fault []
    ∧ ∀ fuel ds, tlcRun fd body nm (fuel + 1) s ds = .fault ds := by
  have hstep := tlcStep_oob fd body nm s th fid aOpt vOpt q h hfid
  refine ⟨hstep, fun fuel ds => ?_⟩
  unfold tlcRun
  rw [if_pos hp, hstep]
  dsimp only
  rw [List.append_nil]

/-- C2, witness for the amended claim: the body `[0x30, 0x12, 0xFF]`
carries id 18 and its step faults. -/
theorem claim2_witness :
    tlcStep noFd [48, 18, 255] "src" tlcInit = .fault [] :=
  (claim2_amended noFd [48, 18, 255] "src" tlcInit 3 18 none (some 255) 3
    (by decide) (by decide) (by decide)).1

/-- C4: a `zbuf` field reached while `lunzipped` still holds its initial
value 0 (no `unzip-len` recorded yet), or whose array is empty, makes the
parser emit exactly one error diagnostic and return the empty buffer
immediately (no further fields are parsed); moreover every continuing
iteration emits only debug diagnostics, so that one error diagnostic is
the only one of the whole parse. -/
theorem claim4 (fd : List Nat → Int → Option (List Nat)) (body : List Nat)
    (nm : String) (s : TlcState) (th : Nat) (arr : List Nat) (vOpt : Option Int) (q : Int)
    (h : readField body s.pointer = some (th, 16, some arr, vOpt, q))
    (hz : s.lunzipped = 0 ∨ arr = []) :
    tlcStep fd body nm s = .ret [] [.errCouldNotDecodeTlc globalFilePtrPos nm]
    ∧ (Diag.errCouldNotDecodeTlc globalFilePtrPos nm).isDebug = false
    ∧ (s.pointer < (body.length : Int) → ∀ fuel ds,
        tlcRun fd body nm (fuel + 1) s ds
          = .ok [] (ds ++ [.errCouldNotDecodeTlc globalFilePtrPos nm]))
    ∧ ∀ s0 s2 ds, tlcStep fd body nm s0 = .cont s2 ds → ∀ d ∈ ds, d.isDebug = true := by
  have hstep := tlcStep_zbuf_err fd body nm s th arr vOpt q h hz
  refine ⟨hstep, rfl, fun hp fuel ds => ?_, fun s0 s2 ds h2 => tlcStep_cont_debug fd body nm s0 s2 ds h2⟩
  unfold tlcRun
  rw [if_pos hp, hstep]

/-- C4, witness: the 3-byte body `[0x00, 0x10, 0x00]` (a `zbuf` field with
an empty array, before any `unzip-len`) produces the single error return
from the initial state. -/
theorem claim4_witness :
    tlcStep noFd [0, 16, 0] "n" tlcInit
      = .ret [] [.errCouldNotDecodeTlc globalFilePtrPos "n"] :=
  (claim4 noFd [0, 16, 0] "n" tlcInit 0 [] none 3 (by decide) (Or.inr rfl)).1

/-- C10: an `unzip-len` field whose decoded value is 0 leaves `lunzipped`
at 0 — indistinguishable from no `unzip-len` at all — and a later `zbuf`
field met with `lunzipped = 0` takes exactly the "Could not decode" error
path and returns the empty buffer, because 0 is the sentinel for "no
expected decompressed size recorded". -/
theorem claim10 (fd : List Nat → Int → Option (List Nat)) (body : List Nat)
    (nm : String) (s : TlcState) (th : Nat) (aOpt : Option (List Nat)) (q : Int)
    (h : readField body s.pointer = some (th, 12, aOpt, some 0, q)) :
    (∃ s2, tlcStep fd body nm s = .cont s2 [] ∧ s2.lunzipped = 0 ∧ s2.pointer = q)
    ∧ ∀ (s0 : TlcState) (th2 : Nat) (arr : List Nat) (vO : Option Int) (q2 : Int),
        s0.lunzipped = 0 →
        readField body s0.pointer = some (th2, 16, some arr, vO, q2) →
        tlcStep fd body nm s0 = .ret [] [.errCouldNotDecodeTlc globalFilePtrPos nm] := by
  refine ⟨⟨⟨q, 0, updOpt aOpt s.arrayV, some 0⟩, tlcStep_unzip fd body nm s th aOpt 0 q h, rfl, rfl⟩,
    fun s0 th2 arr vO q2 h0 h16 => tlcStep_zbuf_err fd body nm s0 th2 arr vO q2 h16 (Or.inl h0)⟩

/-- C10, witness: in the body `[0x30,0x0C,0x00, 0x00,0x10,0x01,0x41]` an
`unzip-len` field decodes value 0; the state after it (cursor 3,
`lunzipped = 0`) meets the `zbuf` field with the nonempty array `[0x41]`
and still errors out with the empty return. -/
theorem claim10_witness :
    tlcStep noFd [48, 12, 0, 0, 16, 1, 65] "n" ⟨3, 0, none, some 0⟩
      = .ret [] [.errCouldNotDecodeTlc globalFilePtrPos "n"] :=
  (claim10 noFd [48, 12, 0, 0, 16, 1, 65] "n" tlcInit 3 none 3 (by decide)).2
    ⟨3, 0, none, some 0⟩ 0 [65] none 7 rfl (by decide)

/-- C9, counterexample: on the body `[0x10, 0x01, 0xFF, 0xFC]` — a
category-1 field whose signed 2-byte length prefix is `-4` — one loop
iteration from the state with cursor 0 returns to the very same state
(the cursor does NOT strictly increase), and the `parse_tlc` run exhausts
any fuel: the walk does not terminate. -/
theorem claim9_counterexample :
    tlcStep noFd c9body "s" c9state = .cont c9state []
    ∧ parse_tlc noFd c9body "s" = .outOfFuel [] := by decide

/-- C9, amended: on every loop iteration of the TLV walk that is not a
category-1 field, the cursor strictly increases (so a body without
category-1 fields of negative decoded length makes the walk progress);
for a category-1 field the cursor moves by `4 + larray` where `larray` is
the signed 2-byte prefix, which strictly increases the cursor exactly
when `larray` is nonnegative — a negative `larray` can hold the cursor
back or rewind it, and then the walk need not terminate. -/
theorem claim9_amended (body : List Nat) (p : Int) (th fid : Nat)
    (aOpt : Option (List Nat)) (vOpt : Option Int) (q : Int)
    (h : readField body p = some (th, fid, aOpt, vOpt, q)) :
    (th ≠ 1 → p < q)
    ∧ (th = 1 → ∃ bs, unpackFrom 2 body (p + 2) = some bs ∧ q = p + 2 + 2 + sIntBE bs
        ∧ (0 ≤ sIntBE bs → p < q)) := by
  obtain ⟨b0, hb, hth, hfid, hd⟩ := readField_inv h
  by_cases h8 : 8 ≤ th
  · rw [decodeVal_eq_high th h8 body (p + 2)] at hd
    simp only [Option.some.injEq, Prod.mk.injEq] at hd
    obtain ⟨_, _, hq⟩ := hd
    exact ⟨fun _ => by omega, fun h1 => by omega⟩
  · have hlt : th < 8 := by omega
    interval_cases th
    · rw [decodeVal_eq_zero] at hd
      cases hx : pyIndex body (p + 2) with
      | none => rw [hx] at hd; exact absurd hd (by simp)
      | some x =>
        rw [hx] at hd
        simp only [Option.map_some', Option.some.injEq, Prod.mk.injEq] at hd
        obtain ⟨_, _, hq⟩ := hd
        simp only [Int.ofNat_eq_coe] at hq
        exact ⟨fun _ => by omega, fun h1 => by omega⟩
    · rw [decodeVal_eq_one] at hd
      cases hx : unpackFrom 2 body (p + 2) with
      | none => rw [hx] at hd; exact absurd hd (by simp)
      | some bs =>
        rw [hx] at hd
        simp only [Option.map_some', Option.some.injEq, Prod.mk.injEq] at hd
        obtain ⟨_, _, hq⟩ := hd
        exact ⟨fun h1 => absurd rfl h1, fun _ => ⟨bs, rfl, by omega, fun hnn => by omega⟩⟩
    · rw [decodeVal_eq_two] at hd
      cases hx : unpackFrom 4 body (p + 2) with
      | none => rw [hx] at hd; exact absurd hd (by simp)
      | some bs =>
        rw [hx] at hd
        simp only [Option.map_some', Option.some.injEq, Prod.mk.injEq] at hd
        obtain ⟨_, _, hq⟩ := hd
        exact ⟨fun _ => by omega, fun h1 => by omega⟩
    · rw [decodeVal_eq_three] at hd
      cases hx : pyIndex body (p + 2) with
      | none => rw [hx] at hd; exact absurd hd (by simp)
      | some x =>
        rw [hx] at hd
        simp only [Option.map_some', Option.some.injEq, Prod.mk.injEq] at hd
        obtain ⟨_, _, hq⟩ := hd
        exact ⟨fun _ => by omega, fun h1 => by omega⟩
    · rw [decodeVal_eq_four] at hd
      cases hx : unpackFrom 2 body (p + 2) with
      | none => rw [hx] at hd; exact absurd hd (by simp)
      | some bs =>
        rw [hx] at hd
        simp only [Option.map_some', Option.some.injEq, Prod.mk.injEq] at hd
        obtain ⟨_, _, hq⟩ := hd
        exact ⟨fun _ => by omega, fun h1 => by omega⟩
    · rw [decodeVal_eq_five] at hd
      cases hx : unpackFrom 4 body (p + 2) with
      | none => rw [hx] at hd; exact absurd hd (by simp)
      | some bs =>
        rw [hx] at hd
        simp only [Option.map_some', Option.some.injEq, Prod.mk.injEq] at hd
        obtain ⟨_, _, hq⟩ := hd
        exact ⟨fun _ => by omega, fun h1 => by omega⟩
    · rw [decodeVal_eq_six] at hd
      cases hx : unpackFrom 4 body (p + 2) with
      | none => rw [hx] at hd; exact absurd hd (by simp)
      | some bs =>
        rw [hx] at hd
        simp only [Option.map_some', Option.some.injEq, Prod.mk.injEq] at hd
        obtain ⟨_, _, hq⟩ := hd
        exact ⟨fun _ => by omega, fun h1 => by omega⟩
    · rw [decodeVal_eq_seven] at hd
      cases hx : unpackFrom 16 body (p + 2) with
      | none => rw [hx] at hd; exact absurd hd (by simp)
      | some bs =>
        rw [hx] at hd
        simp only [Option.map_some', Option.some.injEq, Prod.mk.injEq] at hd
        obtain ⟨_, _, hq⟩ := hd
        exact ⟨fun _ => by omega, fun h1 => by omega⟩

/-- C9, witness for the amended claim: the category-3 field of
`[0x30, 0x0C, 0xFF]` strictly advances the cursor from 0 to 3. -/
theorem claim9_witness : (0 : Int) < 3 :=
  (claim9_amended [48, 12, 255] 0 3 12 none (some 255) 3 (by decide)).1 (by decide)

/-! ## Claim C7 (TLV value decoding by category) -/

/-- C7, counterexample: category 3 decodes an UNSIGNED byte — on the
field `[0x30, 0x0C, 0xFF]` the decoded value is 255, not the signed
width-1 value `-1` the claim states; and category 6 decodes only a
4-byte signed integer (while advancing the cursor by 8) — on
`[0x60, 0x01, 0,0,0,1, 0,0,0,0]` the decoded value is 1, not the 8-byte
signed value `2^32`. -/
theorem claim7_counterexample :
    readField [48, 12, 255] 0 = some (3, 12, none, some 255, 3)
    ∧ sIntBE [255] = -1 ∧ (255 : Int) ≠ -1
    ∧ readField [96, 1, 0, 0, 0, 1, 0, 0, 0, 0] 0 = some (6, 1, none, some 1, 10)
    ∧ sIntBE [0, 0, 0, 1, 0, 0, 0, 0] = 4294967296 ∧ (1 : Int) ≠ 4294967296 :=
  ⟨by decide, by decide, by decide, by decide, by decide, by decide⟩

/-- C7, amended: the value of one TLV field by `typeHigh` as the code
computes it.  Categories 0/1/2 read a length prefix of 1/2/4 bytes
(unsigned / SIGNED / unsigned respectively) and then an array slice,
advancing the cursor by the prefix width plus the decoded length value
(for category 1 that value can be negative, shrinking the slice to empty
— when the resulting bound stays nonnegative — and moving the cursor
backwards).  Category 3 reads a 1-byte UNSIGNED integer; categories 4/5
read 2/4-byte signed integers; category 6 advances the cursor by 8 but
decodes only a 4-byte signed integer from the first half; category 7
reads 16 bytes as `(hi << 64) | lo` over the signed 8-byte halves, which
equals the 16-byte signed integer exactly when the low half is
nonnegative.  Categories 8-15 decode nothing and advance the cursor by
the 2 type/id bytes only. -/
theorem claim7_amended (body : List Nat) (p : Nat) (th fid : Nat)
    (aOpt : Option (List Nat)) (vOpt : Option Int) (q : Int)
    (hb256 : ∀ x ∈ body, x < 256)
    (h : readField body (p : Int) = some (th, fid, aOpt, vOpt, q)) :
    (th = 0 → ∃ L, body.get? (p + 2) = some L ∧ vOpt = none
        ∧ aOpt = some ((body.drop (p + 3)).take L) ∧ q = ((p + 3 + L : Nat) : Int))
    ∧ (th = 1 → p + 4 ≤ body.length ∧ vOpt = none
        ∧ q = (p : Int) + 4 + sIntBE ((body.drop (p + 2)).take 2)
        ∧ (0 ≤ sIntBE ((body.drop (p + 2)).take 2) →
            aOpt = some ((body.drop (p + 4)).take (sIntBE ((body.drop (p + 2)).take 2)).toNat))
        ∧ (sIntBE ((body.drop (p + 2)).take 2) < 0 →
            0 ≤ (p : Int) + 4 + sIntBE ((body.drop (p + 2)).take 2) → aOpt = some []))
    ∧ (th = 2 → p + 6 ≤ body.length ∧ vOpt = none
        ∧ aOpt = some ((body.drop (p + 6)).take (bytesToNatBE ((body.drop (p + 2)).take 4)))
        ∧ q = ((p + 6 + bytesToNatBE ((body.drop (p + 2)).take 4) : Nat) : Int))
    ∧ (th = 3 → ∃ x, body.get? (p + 2) = some x ∧ aOpt = none ∧ vOpt = some (Int.ofNat x)
        ∧ q = (p : Int) + 3)
    ∧ (th = 4 → p + 4 ≤ body.length ∧ aOpt = none
        ∧ vOpt = some (sIntBE ((body.drop (p + 2)).take 2)) ∧ q = (p : Int) + 4)
    ∧ (th = 5 → p + 6 ≤ body.length ∧ aOpt = none
        ∧ vOpt = some (sIntBE ((body.drop (p + 2)).take 4)) ∧ q = (p : Int) + 6)
    ∧ (th = 6 → p + 6 ≤ body.length ∧ aOpt = none
        ∧ vOpt = some (sIntBE ((body.drop (p + 2)).take 4)) ∧ q = (p : Int) + 10)
    ∧ (th = 7 → p + 18 ≤ body.length ∧ aOpt = none
        ∧ vOpt = some (pyOr64 (sIntBE ((body.drop (p + 2)).take 8))
            (sIntBE ((body.drop (p + 10)).take 8)))
        ∧ q = (p : Int) + 18
        ∧ (0 ≤ sIntBE ((body.drop (p + 10)).take 8) →
            vOpt = some (sIntBE ((body.drop (p + 2)).take 16))))
    ∧ (8 ≤ th → aOpt = none ∧ vOpt = none ∧ q = (p : Int) + 2) := by
  obtain ⟨b0, hb, hth, hfid, hd⟩ := readField_inv h
  have e2 : (p : Int) + 2 = ((p + 2 : Nat) : Int) := by push_cast; ring
  rw [e2] at hd
  by_cases h8 : 8 ≤ th
  · rw [decodeVal_eq_high th h8] at hd
    simp only [Option.some.injEq, Prod.mk.injEq] at hd
    obtain ⟨ha, hv, hq⟩ := hd
    refine ⟨fun hx => by omega, fun hx => by omega, fun hx => by omega, fun hx => by omega,
      fun hx => by omega, fun hx => by omega, fun hx => by omega, fun hx => by omega,
      fun _ => ⟨ha.symm, hv.symm, by omega⟩⟩
  · have hlt : th < 8 := by omega
    interval_cases th
    · -- category 0
      rw [decodeVal_eq_zero, pyIndex_natCast] at hd
      cases hL : body.get? (p + 2) with
      | none => rw [hL] at hd; exact absurd hd (by simp)
      | some L =>
        rw [hL] at hd
        simp only [Option.map_some', Option.some.injEq, Prod.mk.injEq,
          Int.ofNat_eq_coe] at hd
        obtain ⟨ha, hv, hq⟩ := hd
        have e3 : ((p + 2 : Nat) : Int) + 1 = ((p + 3 : Nat) : Int) := by push_cast; ring
        rw [e3] at ha
        have e3L : ((p + 3 : Nat) : Int) + (L : Int) = ((p + 3 + L : Nat) : Int) := by
          push_cast; ring
        rw [e3L, pySlice_natCast] at ha
        have esub : p + 3 + L - (p + 3) = L := by omega
        rw [esub] at ha
        refine ⟨fun _ => ⟨L, rfl, hv.symm, ha.symm, by omega⟩, fun hx => absurd hx (by decide),
          fun hx => absurd hx (by decide), fun hx => absurd hx (by decide),
          fun hx => absurd hx (by decide), fun hx => absurd hx (by decide),
          fun hx => absurd hx (by decide), fun hx => absurd hx (by decide),
          fun hx => absurd hx (by decide)⟩
    · -- category 1
      rw [decodeVal_eq_one, unpackFrom_natCast] at hd
      by_cases hin : p + 2 + 2 ≤ body.length
      · rw [if_pos hin] at hd
        simp only [Option.map_some', Option.some.injEq, Prod.mk.injEq] at hd
        obtain ⟨ha, hv, hq⟩ := hd
        refine ⟨fun hx => absurd hx (by decide), fun _ => ?_, fun hx => absurd hx (by decide),
          fun hx => absurd hx (by decide), fun hx => absurd hx (by decide),
          fun hx => absurd hx (by decide), fun hx => absurd hx (by decide),
          fun hx => absurd hx (by decide), fun hx => absurd hx (by decide)⟩
        refine ⟨by omega, hv.symm, by omega, fun hnn => ?_, fun hneg hpos => ?_⟩
        · have ei : ((p + 2 : Nat) : Int) + 2 = ((p + 4 : Nat) : Int) := by push_cast; ring
          have ej : ((p + 2 : Nat) : Int) + 2 + sIntBE ((body.drop (p + 2)).take 2)
              = ((p + 4 + (sIntBE ((body.drop (p + 2)).take 2)).toNat : Nat) : Int) := by
            omega
          rw [ei] at ha
          rw [ei] at ej
          rw [ej, pySlice_natCast] at ha
          have esub : p + 4 + (sIntBE ((body.drop (p + 2)).take 2)).toNat - (p + 4)
              = (sIntBE ((body.drop (p + 2)).take 2)).toNat := by omega
          rw [esub] at ha
          exact ha.symm
        · rw [pySlice_of_le body _ _ (by omega) (by omega)] at ha
          exact ha.symm
      · rw [if_neg hin] at hd
        exact absurd hd (by simp)
    · -- category 2
      rw [decodeVal_eq_two, unpackFrom_natCast] at hd
      by_cases hin : p + 2 + 4 ≤ body.length
      · rw [if_pos hin] at hd
        simp only [Option.map_some', Option.some.injEq, Prod.mk.injEq] at hd
        obtain ⟨ha, hv, hq⟩ := hd
        have ei : ((p + 2 : Nat) : Int) + 4 = ((p + 6 : Nat) : Int) := by push_cast; ring
        rw [ei] at ha
        have ej : ((p + 6 : Nat) : Int) + (bytesToNatBE ((body.drop (p + 2)).take 4) : Int)
            = ((p + 6 + bytesToNatBE ((body.drop (p + 2)).take 4) : Nat) : Int) := by
          push_cast; ring
        rw [ej, pySlice_natCast] at ha
        have esub : p + 6 + bytesToNatBE ((body.drop (p + 2)).take 4) - (p + 6)
            = bytesToNatBE ((body.drop (p + 2)).take 4) := by omega
        rw [esub] at ha
        refine ⟨fun hx => absurd hx (by decide), fun hx => absurd hx (by decide),
          fun _ => ⟨by omega, hv.symm, ha.symm, by omega⟩, fun hx => absurd hx (by decide),
          fun hx => absurd hx (by decide), fun hx => absurd hx (by decide),
          fun hx => absurd hx (by decide), fun hx => absurd hx (by decide),
          fun hx => absurd hx (by decide)⟩
      · rw [if_neg hin] at hd
        exact absurd hd (by simp)
    · -- category 3
      rw [decodeVal_eq_three, pyIndex_natCast] at hd
      cases hL : body.get? (p + 2) with
      | none => rw [hL] at hd; exact absurd hd (by simp)
      | some x =>
        rw [hL] at hd
        simp only [Option.map_some', Option.some.injEq, Prod.mk.injEq] at hd
        obtain ⟨ha, hv, hq⟩ := hd
        refine ⟨fun hx => absurd hx (by decide), fun hx => absurd hx (by decide),
          fun hx => absurd hx (by decide), fun _ => ⟨x, rfl, ha.symm, hv.symm, by omega⟩,
          fun hx => absurd hx (by decide), fun hx => absurd hx (by decide),
          fun hx => absurd hx (by decide), fun hx => absurd hx (by decide),
          fun hx => absurd hx (by decide)⟩
    · -- category 4
      rw [decodeVal_eq_four, unpackFrom_natCast] at hd
      by_cases hin : p + 2 + 2 ≤ body.length
      · rw [if_pos hin] at hd
        simp only [Option.map_some', Option.some.injEq, Prod.mk.injEq] at hd
        obtain ⟨ha, hv, hq⟩ := hd
        refine ⟨fun hx => absurd hx (by decide), fun hx => absurd hx (by decide),
          fun hx => absurd hx (by decide), fun hx => absurd hx (by decide),
          fun _ => ⟨by omega, ha.symm, hv.symm, by omega⟩, fun hx => absurd hx (by decide),
          fun hx => absurd hx (by decide), fun hx => absurd hx (by decide),
          fun hx => absurd hx (by decide)⟩
      · rw [if_neg hin] at hd
        exact absurd hd (by simp)
    · -- category 5
      rw [decodeVal_eq_five, unpackFrom_natCast] at hd
      by_cases hin : p + 2 + 4 ≤ body.length
      · rw [if_pos hin] at hd
        simp only [Option.map_some', Option.some.injEq, Prod.mk.injEq] at hd
        obtain ⟨ha, hv, hq⟩ := hd
        refine ⟨fun hx => absurd hx (by decide), fun hx => absurd hx (by decide),
          fun hx => absurd hx (by decide), fun hx => absurd hx (by decide),
          fun hx => absurd hx (by decide), fun _ => ⟨by omega, ha.symm, hv.symm, by omega⟩,
          fun hx => absurd hx (by decide), fun hx => absurd hx (by decide),
          fun hx => absurd hx (by decide)⟩
      · rw [if_neg hin] at hd
        exact absurd hd (by simp)
    · -- category 6
      rw [decodeVal_eq_six, unpackFrom_natCast] at hd
      by_cases hin : p + 2 + 4 ≤ body.length
      · rw [if_pos hin] at hd
        simp only [Option.map_some', Option.some.injEq, Prod.mk.injEq] at hd
        obtain ⟨ha, hv, hq⟩ := hd
        refine ⟨fun hx => absurd hx (by decide), fun hx => absurd hx (by decide),
          fun hx => absurd hx (by decide), fun hx => absurd hx (by decide),
          fun hx => absurd hx (by decide), fun hx => absurd hx (by decide),
          fun _ => ⟨by omega, ha.symm, hv.symm, by omega⟩, fun hx => absurd hx (by decide),
          fun hx => absurd hx (by decide)⟩
      · rw [if_neg hin] at hd
        exact absurd hd (by simp)
    · -- category 7
      rw [decodeVal_eq_seven, unpackFrom_natCast] at hd
      by_cases hin : p + 2 + 16 ≤ body.length
      · rw [if_pos hin] at hd
        simp only [Option.map_some', Option.some.injEq, Prod.mk.injEq] at hd
        obtain ⟨ha, hv, hq⟩ := hd
        have hbs8 : ((body.drop (p + 2)).take 16).take 8 = (body.drop (p + 2)).take 8 := by
          rw [List.take_take]
          norm_num
        have hbs8d : ((body.drop (p + 2)).take 16).drop 8 = (body.drop (p + 10)).take 8 := by
          rw [List.drop_take, List.drop_drop]
        rw [hbs8, hbs8d] at hv
        refine ⟨fun hx => absurd hx (by decide), fun hx => absurd hx (by decide),
          fun hx => absurd hx (by decide), fun hx => absurd hx (by decide),
          fun hx => absurd hx (by decide), fun hx => absurd hx (by decide),
          fun hx => absurd hx (by decide),
          fun _ => ⟨by omega, ha.symm, hv.symm, by omega, fun hlo => ?_⟩,
          fun hx => absurd hx (by decide)⟩
        have hlen16 : ((body.drop (p + 2)).take 16).length = 16 := by
          rw [List.length_take, List.length_drop]
          omega
        have hbsub : ∀ x ∈ (body.drop (p + 2)).take 16, x < 256 := fun x hx =>
          hb256 x (List.drop_subset (p + 2) body (List.take_subset 16 (body.drop (p + 2)) hx))
        have hsplit := pyOr64_split16 ((body.drop (p + 2)).take 16) hlen16 hbsub
          (by rw [hbs8d]; exact hlo)
        rw [hbs8, hbs8d] at hsplit
        rw [← hv, ← hsplit]
      · rw [if_neg hin] at hd
        exact absurd hd (by simp)

/-- C7, witness for the amended claim: the category-4 field
`[0x40, 0x01, 0x01, 0x00]` decodes the signed 2-byte value 256 and
advances the cursor to 4. -/
theorem claim7_witness :
    (0 : Nat) + 4 ≤ [64, 1, 1, 0].length
    ∧ (none : Option (List Nat)) = none
    ∧ some 256 = some (sIntBE (([64, 1, 1, 0].drop (0 + 2)).take 2))
    ∧ (4 : Int) = ((0 : Nat) : Int) + 4 :=
  (claim7_amended [64, 1, 1, 0] 0 4 1 none (some 256) 4 (by decide) (by decide)).2.2.2.2.1 rfl

/-! ## Claim C6 (envelope piece processing) -/

theorem pySplitSeqF_ne_nil (a : Nat) (sep : List Nat) :
    ∀ (fuel : Nat) (l : List Nat), l.length < fuel → pySplitSeqF a sep fuel l ≠ [] := by
  intro fuel
  induction fuel with
  | zero => intro l hl; omega
  | succ fuel ih =>
    intro l hl
    cases l with
    | nil => simp [pySplitSeqF]
    | cons x xs =>
      rw [pySplitSeqF]
      cases hm : seqMatch (a :: sep) (x :: xs) with
      | true => rw [if_pos rfl]; simp
      | false =>
        rw [if_neg (by simp)]
        cases pySplitSeqF a sep fuel xs <;> simp

theorem pySplitSeqF_length (a : Nat) (sep : List Nat) :
    ∀ (fuel : Nat) (l : List Nat), l.length < fuel →
      (pySplitSeqF a sep fuel l).length = countOccF a sep fuel l + 1 := by
  intro fuel
  induction fuel with
  | zero => intro l hl; omega
  | succ fuel ih =>
    intro l hl
    cases l with
    | nil => simp [pySplitSeqF, countOccF]
    | cons x xs =>
      rw [pySplitSeqF, countOccF]
      simp only [List.length_cons] at hl
      cases hm : seqMatch (a :: sep) (x :: xs) with
      | true =>
        rw [if_pos rfl, if_pos rfl]
        have hdl : (xs.drop sep.length).length < fuel := by
          rw [List.length_drop]; omega
        simp only [List.length_cons, ih (xs.drop sep.length) hdl]
      | false =>
        rw [if_neg (by simp), if_neg (by simp)]
        have hih := ih xs (by omega)
        cases hps : pySplitSeqF a sep fuel xs with
        | nil => exact absurd hps (pySplitSeqF_ne_nil a sep fuel xs (by omega))
        | cons p ps =>
          rw [hps] at hih
          simp only [List.length_cons] at hih ⊢
          omega

theorem pySplitSeqF_zero (a : Nat) (sep : List Nat) :
    ∀ (fuel : Nat) (l : List Nat), l.length < fuel →
      countOccF a sep fuel l = 0 → pySplitSeqF a sep fuel l = [l] := by
  intro fuel
  induction fuel with
  | zero => intro l hl; omega
  | succ fuel ih =>
    intro l hl hc
    cases l with
    | nil => simp [pySplitSeqF]
    | cons x xs =>
      rw [countOccF] at hc
      rw [pySplitSeqF]
      simp only [List.length_cons] at hl
      by_cases hm : seqMatch (a :: sep) (x :: xs) = true
      · rw [if_pos hm] at hc; omega
      · rw [if_neg hm] at hc
        rw [if_neg hm, ih xs (by omega) hc]

theorem pySplitSeqF_one (a : Nat) (sep : List Nat) :
    ∀ (fuel : Nat) (l : List Nat), l.length < fuel →
      countOccF a sep fuel l = 1 →
      ∃ pre, pySplitSeqF a sep fuel l = [pre, afterFirstOccF a sep fuel l] := by
  intro fuel
  induction fuel with
  | zero => intro l hl; omega
  | succ fuel ih =>
    intro l hl hc
    cases l with
    | nil => rw [countOccF] at hc; omega
    | cons x xs =>
      rw [countOccF] at hc
      rw [pySplitSeqF, afterFirstOccF]
      simp only [List.length_cons] at hl
      by_cases hm : seqMatch (a :: sep) (x :: xs) = true
      · rw [if_pos hm] at hc
        rw [if_pos hm, if_pos hm]
        have hdl : (xs.drop sep.length).length < fuel := by
          rw [List.length_drop]; omega
        rw [pySplitSeqF_zero a sep fuel (xs.drop sep.length) hdl (by omega)]
        exact ⟨[], rfl⟩
      · rw [if_neg hm] at hc
        rw [if_neg hm, if_neg hm]
        obtain ⟨pre, hpre⟩ := ih xs (by omega) hc
        rw [hpre]
        exact ⟨x :: pre, rfl⟩

/-- The fueled split/count/suffix functions ignore the exact fuel once it
exceeds the list length (both forms used below). -/
theorem countOccF_fuel (a : Nat) (sep : List Nat) :
    ∀ (f1 : Nat) (l : List Nat), l.length < f1 →
      countOccF a sep f1 l = countOcc a sep l := by
  have key : ∀ (f1 f2 : Nat) (l : List Nat), l.length < f1 → l.length < f2 →
      countOccF a sep f1 l = countOccF a sep f2 l := by
    intro f1
    induction f1 with
    | zero => intro f2 l h1; omega
    | succ f1 ih =>
      intro f2 l h1 h2
      cases f2 with
      | zero => omega
      | succ f2 =>
        cases l with
        | nil => rw [countOccF, countOccF]
        | cons x xs =>
          rw [countOccF, countOccF]
          simp only [List.length_cons] at h1 h2
          cases hm : seqMatch (a :: sep) (x :: xs) with
          | true =>
            rw [if_pos rfl, if_pos rfl]
            have hd1 : (xs.drop sep.length).length < f1 := by rw [List.length_drop]; omega
            have hd2 : (xs.drop sep.length).length < f2 := by rw [List.length_drop]; omega
            rw [ih f2 (xs.drop sep.length) hd1 hd2]
          | false =>
            rw [if_neg (by simp), if_neg (by simp)]
            exact ih f2 xs (by omega) (by omega)
  intro f1 l h1
  exact key f1 (l.length + 1) l h1 (by omega)

/-- Processing of one piece, characterized by occurrence counting: a piece
is kept exactly when the marker occurs exactly once in it, and then the
entry is the marker re-attached to the suffix after that occurrence. -/
theorem tlcPiece_eq (raw : List Nat) :
    tlcPiece raw = if countOcc 100 [97, 116, 101, 61] raw = 1
      then some (dateMarker ++ afterFirstOcc 100 [97, 116, 101, 61] raw) else none := by
  by_cases h1 : countOcc 100 [97, 116, 101, 61] raw = 1
  · obtain ⟨pre, hs⟩ := pySplitSeqF_one 100 [97, 116, 101, 61] (raw.length + 1) raw
      (by omega) h1
    rw [if_pos h1]
    unfold tlcPiece pySplitSeq
    rw [hs]
    rfl
  · rw [if_neg h1]
    unfold tlcPiece
    have hlen := pySplitSeqF_length 100 [97, 116, 101, 61] (raw.length + 1) raw (by omega)
    cases hs : pySplitSeq 100 [97, 116, 101, 61] raw with
    | nil => rfl
    | cons p ps =>
      cases ps with
      | nil => rfl
      | cons p2 ps2 =>
        cases ps2 with
        | nil =>
          unfold pySplitSeq at hs
          rw [hs] at hlen
          simp only [List.length_cons, List.length_nil] at hlen
          exact absurd (show countOcc 100 [97, 116, 101, 61] raw = 1 by
            unfold countOcc; omega) h1
        | cons p3 ps3 => rfl

/-- C6, counterexample: in the piece `b"date=Adate=B"` the marker
`b"date="` occurs (twice), yet the code emits NO entry for it — the
claim's "at least once yields exactly one entry" is false when the marker
occurs more than once, because `split` then yields three parts and the
`len != 2` guard drops the piece. -/
theorem claim6_counterexample :
    countOcc 100 [97, 116, 101, 61] c6piece = 2 ∧ entriesFromTlc c6piece = [] := by
  decide

/-- C6, amended: splitting the frame-decompressed payload on `0x00`, a
piece yields exactly one entry — the marker `b"date="` re-attached to the
suffix after its occurrence — precisely when the marker occurs EXACTLY
once in the piece; pieces in which it occurs zero times or two or more
times are dropped silently. -/
theorem claim6_amended (tlc : List Nat) :
    entriesFromTlc tlc = (tlc.splitOn 0).filterMap (fun raw =>
      if countOcc 100 [97, 116, 101, 61] raw = 1
      then some (dateMarker ++ afterFirstOcc 100 [97, 116, 101, 61] raw) else none) := by
  unfold entriesFromTlc
  have key : ∀ xs : List (List Nat), xs.filterMap tlcPiece
      = xs.filterMap (fun raw =>
          if countOcc 100 [97, 116, 101, 61] raw = 1
          then some (dateMarker ++ afterFirstOcc 100 [97, 116, 101, 61] raw) else none) := by
    intro xs
    induction xs with
    | nil => rfl
    | cons y ys ih =>
      rw [List.filterMap_cons, List.filterMap_cons, tlcPiece_eq, ih]
  exact key (tlc.splitOn 0)

/-! ## Claim C3 (block record entry splitting) -/

/-- The entry loop produces one slice per length-table entry: as long as
the accumulated lengths fit into the decompressed buffer, the slices have
exactly the table's lengths and concatenate to the buffer region they
cover. -/
theorem blockGo_spec (d el : List Nat) :
    ∀ (k no p : Nat), p + (lengthTableGo el no k).sum ≤ d.length →
      (blockGo d el no p k).length = k
      ∧ (blockGo d el no p k).map List.length = lengthTableGo el no k
      ∧ (blockGo d el no p k).flatten = (d.drop p).take (lengthTableGo el no k).sum := by
  intro k
  induction k with
  | zero => intro no p _; simp [blockGo, lengthTableGo]
  | succ k ih =>
    intro no p h
    rw [lengthTableGo] at h ⊢
    rw [blockGo]
    simp only [List.sum_cons] at h
    have hl : p + bytesToNatBE ((el.drop no).take 2) ≤ d.length := by omega
    have ihk := ih (no + 2) (p + bytesToNatBE ((el.drop no).take 2)) (by omega)
    obtain ⟨ih1, ih2, ih3⟩ := ihk
    refine ⟨by simp [ih1], ?_, ?_⟩
    · rw [List.map_cons, ih2]
      congr 1
      rw [List.length_take, List.length_drop]
      omega
    · rw [List.flatten_cons, ih3]
      have hdd : d.drop (p + bytesToNatBE ((el.drop no).take 2))
          = (d.drop p).drop (bytesToNatBE ((el.drop no).take 2)) := by
        rw [List.drop_drop]
      rw [hdd, ← List.take_add, List.sum_cons]

/-- C3: when a block record decompresses successfully, the entry split is
exact — with `entryCount = N > 1` and a length table summing to the
decompressed buffer's length, exactly N entries are produced whose
lengths match the table in order and whose concatenation is the whole
buffer; with `entryCount = 1` the single entry is the whole buffer, and
with `entryCount = 0` no entry is produced, both unconditionally (those
two branches never consult the length table). -/
theorem claim3 (n : Nat) (el d : List Nat) :
    (1 < n → (lengthTable el n).sum = d.length →
      (splitBlockEntries n el d).length = n
      ∧ (splitBlockEntries n el d).map List.length = lengthTable el n
      ∧ (splitBlockEntries n el d).flatten = d)
    ∧ splitBlockEntries 1 el d = [d]
    ∧ splitBlockEntries 0 el d = [] := by
  refine ⟨fun hn hsum => ?_, by simp [splitBlockEntries], by simp [splitBlockEntries]⟩
  unfold splitBlockEntries
  rw [if_pos hn]
  have h := blockGo_spec d el n 0 0 (by unfold lengthTable at hsum; omega)
  obtain ⟨h1, h2, h3⟩ := h
  unfold lengthTable
  refine ⟨h1, h2, ?_⟩
  rw [h3]
  unfold lengthTable at hsum
  rw [hsum, List.drop_zero, List.take_length]

/-- C3, witness: the length table `[0,1,0,2]` (entries 1 and 2) over the
3-byte buffer `[9,8,7]` splits into `[[9],[8,7]]`; and with
`entryCount = 1` the whole buffer is the one entry even when the (then
ignored) length table `[5,5]` does not sum to the buffer's length. -/
theorem claim3_witness :
    ((1 < 2 → (lengthTable [0, 1, 0, 2] 2).sum = [9, 8, 7].length →
        (splitBlockEntries 2 [0, 1, 0, 2] [9, 8, 7]).length = 2
        ∧ (splitBlockEntries 2 [0, 1, 0, 2] [9, 8, 7]).map List.length
            = lengthTable [0, 1, 0, 2] 2
        ∧ (splitBlockEntries 2 [0, 1, 0, 2] [9, 8, 7]).flatten = [9, 8, 7])
      ∧ splitBlockEntries 1 [0, 1, 0, 2] [9, 8, 7] = [[9, 8, 7]]
      ∧ splitBlockEntries 0 [0, 1, 0, 2] [9, 8, 7] = [])
    ∧ splitBlockEntries 1 [5, 5] [9, 8] = [[9, 8]]
    ∧ splitBlockEntries 0 [5, 5] [9, 8] = [] :=
  ⟨claim3 2 [0, 1, 0, 2] [9, 8, 7], (claim3 1 [5, 5] [9, 8]).2.1,
    (claim3 0 [5, 5] [9, 8]).2.2⟩

/-! ## Claims C5, C1, C8 (stream scanner) -/

/-- C5: at any stream position where the scanner reads a nonempty tag
that is neither `0xECCF`, `0xAA01`, nor padding (`0x0000` or a single
`0x00`), it emits exactly one error diagnostic naming that offset and the
raw tag bytes, and the scan of this stream terminates — the whole
remaining run produces no entries and exactly that diagnostic, without
any fault. -/
theorem claim5 (bd : List Nat → Nat → Option (List Nat))
    (fd : List Nat → Int → Option (List Nat)) (data : List Nat)
    (src out : String) (pos count : Nat)
    (h1 : (sRead data pos 2).1 ≠ [236, 207])
    (h2 : (sRead data pos 2).1 ≠ [170, 1])
    (h3 : (sRead data pos 2).1 ≠ [0, 0])
    (h4 : (sRead data pos 2).1 ≠ [0])
    (h5 : (sRead data pos 2).1 ≠ []) :
    scanStep bd fd data src out pos count
      = .halt [.failedUnknownHeader src ((sRead data pos 2).1) pos]
    ∧ ∀ fuel, scanRun bd fd data src out (fuel + 1) pos count
        = .done [] [.failedUnknownHeader src ((sRead data pos 2).1) pos] := by
  have hstep : scanStep bd fd data src out pos count
      = .halt [.failedUnknownHeader src ((sRead data pos 2).1) pos] := by
    unfold scanStep
    rw [if_neg h1, if_neg h2, if_neg (not_or.mpr ⟨h3, h4⟩), if_pos h5]
  refine ⟨hstep, fun fuel => ?_⟩
  unfold scanRun
  rw [hstep]

/-- C5, witness: the stream `[0xFF, 0xFF]` halts immediately with the
unknown-header diagnostic at offset 0. -/
theorem claim5_witness :
    scanStep noBd noFd [255, 255] "src" "out" 0 0
      = .halt [.failedUnknownHeader "src" (sRead [255, 255] 0 2).1 0] :=
  (claim5 noBd noFd [255, 255] "src" "out" 0 0 (by decide) (by decide) (by decide)
    (by decide) (by decide)).1

/-- C1: evaluating the decoder at a stream whose first block record has a
corrupted compressed payload (trailer length 2, trailer bytes, then a
valid block record at offset 27).  The `continue` in the exception
handler skips the trailer reads, so after emitting the LZ4 error
diagnostic the scanner resumes at the trailer-length bytes (offset 23),
reads `[2, 0]` as a tag, and halts with an unknown-header diagnostic —
the following valid record is never decoded and the run emits no entries
at all.  The second conjunct shows the very same valid record decodes to
the entry `[5, 6]` when the scanner actually starts at its first byte:
the claim's required resynchronization does not happen. -/
theorem claim1_bug :
    decode_llogv5 c1bd noFd c1data "in.log" "out.csv"
      = .done [] [.foundLz4 0, .entryHolds 1, .errLz4Block 0 "in.log",
          .failedUnknownHeader "in.log" [2, 0] 23]
    ∧ decode_llogv5 c1bd noFd c1rec2 "in.log" "out.csv"
      = .done [[5, 6]] [.foundLz4 0, .entryHolds 1, .doneEof "in.log" 1] :=
  ⟨by decide, by decide⟩

/-- C8: evaluating the decoder at a stream holding two padding bytes and
then an envelope record whose TLV body is malformed (a `zbuf` with an
empty array before any `unzip-len`).  The record's tag is read at offset
2 of the source stream "in.log", but the error diagnostic emitted by the
TLV parser names offset 0 — the stale module-level `file_ptr_pos`, never
updated because `decode_llogv5` only rebinds a local of that name — and
names the OUTPUT stream "out.csv", because the call site passes
`(body, outstream, instream)` to the parameters
`(body, instream, outstream)`. -/
theorem claim8_bug :
    decode_llogv5 noBd noFd c8data "in.log" "out.csv"
      = .done [] [.foundTlc 2, .errCouldNotDecodeTlc 0 "out.csv", .decodedLogs 0,
          .doneEof "in.log" 0]
    ∧ (0 : Int) ≠ 2 ∧ "out.csv" ≠ "in.log" :=
  ⟨by decide, by decide, by decide⟩

end Fortilog
